import Mathlib

/-!
Verification development for the fiber-photometry Control-vs-Test pipeline
(`fiberphotometry_graph_analysis_no_zero.py`).

The script is embedded shallowly: pandas/numpy floating-point series become
lists of rationals (exact arithmetic), NaN cells become `none` in
`List (Option ℚ)`, and the one genuinely real-valued operation (the square
root inside a standard deviation) is modelled with `Real.sqrt` over the
rational variance.  Fallible functions return `Except`.
-/

namespace Photometry

/-! ## Generic list statistics (pandas `mean` / `std(ddof=1)` / numpy `std`) -/

/-- Arithmetic mean of a list; `[]` yields `0` (division by zero). -/
def lmean {α : Type} [LinearOrderedField α] (l : List α) : α :=
  l.sum / l.length

/-- Sample variance with divisor `n - 1` (pandas `Series.std()` squared,
`ddof=1`). -/
def sampleVar {α : Type} [LinearOrderedField α] (l : List α) : α :=
  (l.map (fun v => (v - lmean l) ^ 2)).sum / ((l.length : α) - 1)

/-- Population variance with divisor `n` (numpy `nanstd` squared, `ddof=0`). -/
def popVar {α : Type} [LinearOrderedField α] (l : List α) : α :=
  (l.map (fun v => (v - lmean l) ^ 2)).sum / (l.length : α)

/-- `((ts >= w.1) & (ts <= w.2)).sum()`: how many samples of the time axis
fall in the closed window `w`. -/
def maskCount (ts : List ℚ) (w : ℚ × ℚ) : ℕ :=
  ts.countP (fun t => decide (w.1 ≤ t ∧ t ≤ w.2))

/-- `ys[mask]` for the boolean mask of the closed window `w` on the aligned
time axis `ts` (pandas boolean indexing of one series by a mask built from
another, both sharing the same index). -/
def windowVals {α : Type} (ts : List ℚ) (ys : List α) (w : ℚ × ℚ) : List α :=
  (((ts.zip ys).filter (fun p => decide (w.1 ≤ p.1 ∧ p.1 ≤ w.2))).map Prod.snd)

/-! ## `correct_photobleaching` -/

inductive PbError : Type
  /-- "Baseline intervals too short for photobleaching correction." -/
  | insufficientBaseline : PbError
deriving DecidableEq

/-- `correct_photobleaching(ts, ys, pre_interval, post_interval)`:
linear photobleaching correction using means from two windows.  Note the
slope denominator is `post_interval[1] - pre_interval[0]` (the source divides
by the *end* of the post window minus the start of the pre window). -/
def correct_photobleaching (ts ys : List ℚ) (pre post : ℚ × ℚ) :
    Except PbError (List ℚ) :=
  if maskCount ts pre < 5 ∨ maskCount ts post < 5 then
    .error .insufficientBaseline
  else
    let pre_mean := lmean (windowVals ts ys pre)
    let post_mean := lmean (windowVals ts ys post)
    let slope := (post_mean - pre_mean) / (post.2 - pre.1)
    let intercept := pre_mean - slope * pre.1
    .ok ((ts.zip ys).map (fun p => p.2 - (slope * p.1 + intercept)))

/-- Variant following the spec's words instead of the source: the spec fits
the line through the two points (pre-window START, pre_mean) and
(post-window START, post_mean), so its slope denominator is
`post.1 - pre.1`.  Kept only to compare against `correct_photobleaching`. -/
def photobleach_per_spec (ts ys : List ℚ) (pre post : ℚ × ℚ) :
    Except PbError (List ℚ) :=
  if maskCount ts pre < 5 ∨ maskCount ts post < 5 then
    .error .insufficientBaseline
  else
    let pre_mean := lmean (windowVals ts ys pre)
    let post_mean := lmean (windowVals ts ys post)
    let slope := (post_mean - pre_mean) / (post.1 - pre.1)
    let intercept := pre_mean - slope * pre.1
    .ok ((ts.zip ys).map (fun p => p.2 - (slope * p.1 + intercept)))

/-! ## `correct_motion` -/

inductive MotionError : Type
  /-- "Not enough data points for motion correction." -/
  | insufficientData : MotionError
deriving DecidableEq

/-- Fitted values `A @ coeffs` of `np.linalg.lstsq(A, y)` for the two-column
design matrix `A = [x, 1]`.  For `Sxx ≠ 0` this is the unique ordinary
least-squares line; for `Sxx = 0` (constant regressor) `lstsq` returns the
minimum-norm solution, whose fitted values are the projection of `y` onto
the span of the all-ones column, i.e. the constant `mean y`. -/
def olsFitted (x y : List ℚ) : List ℚ :=
  let xbar := lmean x
  let ybar := lmean y
  let sxx := (x.map (fun v => (v - xbar) ^ 2)).sum
  let sxy := ((x.zip y).map (fun p => (p.1 - xbar) * (p.2 - ybar))).sum
  if sxx = 0 then List.replicate x.length ybar
  else x.map (fun v => sxy / sxx * (v - xbar) + ybar)

/-- `corrected = fluo465 - (fitted - np.mean(fitted))`. -/
def motionCorrected (y x : List ℚ) : List ℚ :=
  (y.zip (olsFitted x y)).map (fun p => p.1 - (p.2 - lmean (olsFitted x y)))

/-- `correct_motion(fluo465, fluo405)`: motion correction by linear
regression (405 fitted to 465).  Returns the pair
`(np.asarray(fluo405), corrected)` — the reference channel is the FIRST
component of the returned pair in the source. -/
def correct_motion (fluo465 fluo405 : List ℚ) :
    Except MotionError (List ℚ × List ℚ) :=
  if fluo405.length < 10 then .error .insufficientData
  else .ok (fluo405, motionCorrected fluo465 fluo405)

/-! ## `transform_to_zscore` -/

inductive ZscoreError : Type
  /-- "Baseline interval too short for Z-score." -/
  | insufficientBaseline : ZscoreError
  /-- "Cannot Z-score (std=0)." -/
  | zeroVariance : ZscoreError
deriving DecidableEq

/-- `transform_to_zscore(ts, ys, baseline_interval)` on a NaN-free series.
`sd = ys[mask].std()` is the pandas sample standard deviation
(`ddof=1`), i.e. `Real.sqrt` of `sampleVar`; the source's `sd == 0` test is
taken on the variance (`√v = 0` exactly when `v = 0`, since `v ≥ 0`). -/
noncomputable def transform_to_zscore (ts ys : List ℚ) (w : ℚ × ℚ) :
    Except ZscoreError (List ℝ) :=
  if maskCount ts w < 5 then .error .insufficientBaseline
  else
    let vals := windowVals ts ys w
    if sampleVar vals = 0 then .error .zeroVariance
    else .ok (ys.map (fun y : ℚ =>
      ((y : ℝ) - ((lmean vals : ℚ) : ℝ)) / Real.sqrt ((sampleVar vals : ℚ) : ℝ)))

/-! ## NaN-aware (pandas `skipna`) variants used by the per-animal pipeline.
A `none` cell models a NaN. -/

/-- Count of NaN cells in a column. -/
def countNone (l : List (Option ℚ)) : ℕ :=
  l.countP (fun o => o.isNone)

/-- `col.isna().mean()`: fraction of NaN cells in one column. -/
def fracNone (l : List (Option ℚ)) : ℚ :=
  (countNone l : ℚ) / l.length

/-- `df[[c1, c2]].isna().mean().mean()`: mean of the two per-column NaN
fractions (equal to the combined fraction when the columns have the same
length). -/
def nanFrac (a b : List (Option ℚ)) : ℚ :=
  (fracNone a + fracNone b) / 2

/-- `some` exactly when the column has no NaN cell. -/
def seqOpt : List (Option ℚ) → Option (List ℚ)
  | [] => some []
  | o :: rest =>
    match o, seqOpt rest with
    | some v, some vs => some (v :: vs)
    | _, _ => none

/-- NaN-aware `correct_motion`: with any NaN present, `np.linalg.lstsq`
propagates NaN through the normal equations, so the fitted and corrected
series are entirely NaN; `np.asarray(fluo405)` is returned as-is. -/
def correct_motion_opt (fluo465 fluo405 : List (Option ℚ)) :
    Except MotionError (List (Option ℚ) × List (Option ℚ)) :=
  if fluo405.length < 10 then .error .insufficientData
  else
    match seqOpt fluo465, seqOpt fluo405 with
    | some y, some x => .ok (fluo405, (motionCorrected y x).map some)
    | _, _ => .ok (fluo405, List.replicate fluo465.length none)

/-- Pandas `Series.mean()` with `skipna`: NaN (`none`) iff no valid cell. -/
def skipnaMean (l : List (Option ℚ)) : Option ℚ :=
  let v := l.filterMap id
  if v.isEmpty then none else some (lmean v)

/-- Pandas `Series.std()` (`ddof=1`) with `skipna`, as a variance:
NaN (`none`) iff fewer than two valid cells. -/
def skipnaSampleVar (l : List (Option ℚ)) : Option ℚ :=
  let v := l.filterMap id
  if v.length < 2 then none else some (sampleVar v)

/-- NaN-aware `transform_to_zscore`.  The mask is computed on the (NaN-free)
time axis; `mu`/`sd` skip NaN cells; `sd == 0` is `False` when `sd` is NaN;
elementwise `(ys - mu) / sd` propagates NaN. -/
noncomputable def transform_to_zscore_opt (ts : List ℚ) (ys : List (Option ℚ))
    (w : ℚ × ℚ) : Except ZscoreError (List (Option ℝ)) :=
  if maskCount ts w < 5 then .error .insufficientBaseline
  else
    let vals := windowVals ts ys w
    let mu := skipnaMean vals
    let v := skipnaSampleVar vals
    if v = some 0 then .error .zeroVariance
    else .ok (ys.map (fun y =>
      match y, mu, v with
      | some yv, some m, some s => some (((yv : ℝ) - (m : ℝ)) / Real.sqrt (s : ℝ))
      | _, _, _ => none))

/-! ## Per-animal pipeline (`process_folder` body for one file) -/

/-- Run configuration (CLI defaults in the source). -/
structure Config : Type where
  baselineGlobal : ℚ × ℚ
  preW : ℚ × ℚ
  postStartOff : ℚ
  postEndOff : ℚ
  nanThreshold : ℚ
deriving DecidableEq

/-- Why one animal's file was skipped (each `continue` branch). -/
inductive SkipReason : Type
  | tooFewRows : SkipReason
  | photobleachFailed : SkipReason
  | tooManyNaNs : SkipReason
  | motionFailed : SkipReason
  | zscoreFailed : SkipReason
deriving DecidableEq

/-- The augmented record written to `<animal>-phmtry.csv`. -/
structure OutRecord : Type where
  time : List ℚ
  f465 : List ℚ
  af405 : List ℚ
  pbc465 : List (Option ℚ)
  pbc405 : List (Option ℚ)
  maf405 : List (Option ℚ)
  mac465 : List (Option ℚ)
  zsc465 : List (Option ℝ)

/-- Outcome for one input file: saved with its output record, or skipped. -/
inductive PipeResult : Type
  | saved : OutRecord → PipeResult
  | skipped : SkipReason → PipeResult

/-- The output file a result contributes (`none` for a skipped record). -/
def resultOutput : PipeResult → Option OutRecord
  | .saved o => some o
  | .skipped _ => none

/-- `df["time"].max()` of a nonempty column (junk `0` on `[]`; the pipeline
only calls it after the 10-row gate). -/
def listMax : List ℚ → ℚ
  | [] => 0
  | a :: rest => rest.foldl max a

/-- Stages of `process_folder` downstream of the photobleaching step: the
NaN-ratio quality gate, then motion correction, then Z-score, then save. -/
noncomputable def pipelineAfterDebleach (cfg : Config) (ts f465 af405 : List ℚ)
    (pbc465 pbc405 : List (Option ℚ)) : PipeResult :=
  if nanFrac pbc465 pbc405 > cfg.nanThreshold then .skipped .tooManyNaNs
  else
    match correct_motion_opt pbc465 pbc405 with
    | .error _ => .skipped .motionFailed
    | .ok (maf405, mac465) =>
      match transform_to_zscore_opt ts mac465 cfg.baselineGlobal with
      | .error _ => .skipped .zscoreFailed
      | .ok zsc =>
        .saved ⟨ts, f465, af405, pbc465, pbc405, maf405, mac465, zsc⟩

/-- One row of the standardized dataframe: `(time, F-465, AF-405)`. -/
abbrev Row : Type := ℚ × ℚ × ℚ

/-- The per-file body of `process_folder`, after `load_and_standardize_csv`
has produced the (already `dropna`ed) dataframe `df`.  `df.empty or
len(df) < 10` collapses to the single test `len(df) < 10`. -/
noncomputable def process_record (cfg : Config) (df : List Row) : PipeResult :=
  if df.length < 10 then .skipped .tooFewRows
  else
    let ts := df.map (fun r => r.1)
    let f465 := df.map (fun r => r.2.1)
    let af405 := df.map (fun r => r.2.2)
    let post := (listMax ts - cfg.postStartOff, listMax ts - cfg.postEndOff)
    match correct_photobleaching ts f465 cfg.preW post,
          correct_photobleaching ts af405 cfg.preW post with
    | .ok pbc465, .ok pbc405 =>
      pipelineAfterDebleach cfg ts f465 af405 (pbc465.map some) (pbc405.map some)
    | _, _ => .skipped .photobleachFailed

/-- `df[required].dropna()`: keep exactly the rows where time, signal and
reference are all present. -/
def dropna (raw : List (Option ℚ × Option ℚ × Option ℚ)) : List Row :=
  raw.filterMap (fun r =>
    match r with
    | (some t, some a, some b) => some (t, a, b)
    | _ => none)

/-- One raw CSV, from load through the whole per-animal pipeline. -/
noncomputable def process_file (cfg : Config)
    (raw : List (Option ℚ × Option ℚ × Option ℚ)) : PipeResult :=
  process_record cfg (dropna raw)

/-- `process_folder`: fold the per-file pipeline over the folder, counting
saved files (`n_saved`) and collecting the written records. -/
noncomputable def process_folder (cfg : Config)
    (files : List (List (Option ℚ × Option ℚ × Option ℚ))) :
    ℕ × List OutRecord :=
  files.foldl (fun acc raw =>
    match process_file cfg raw with
    | .saved o => (acc.1 + 1, acc.2 ++ [o])
    | .skipped _ => acc) (0, [])

/-! ## `load_group_data`: iterated `pd.merge(..., on="time", how="outer")`
over the per-animal binned tables, then `drop_duplicates` and
`sort_values("time")`. -/

/-- One animal's table after display-window restriction and 1-second
binning: integer timestamps (unique, by `groupby`) paired with the animal's
Z-score column. -/
abbrev ATable : Type := List (ℤ × ℚ)

/-- The accumulated merged table: a time key and one `Option` cell per
animal merged so far (`none` = the NaN a pandas outer join fills in). -/
abbrev MTable : Type := List (ℤ × List (Option ℚ))

/-- Join keys of an outer merge: left keys in order, then the right keys not
already present. -/
def keyUnion (ks ls : List ℤ) : List ℤ :=
  ks ++ ls.filter (fun t => decide (t ∉ ks))

/-- One `pd.merge(merged, d, on="time", how="outer")` step; `w` is the
number of animal columns accumulated so far, so an unmatched right-only key
gets `w` NaN cells for the earlier animals. -/
def mergeStep (m : MTable) (w : ℕ) (d : ATable) : MTable :=
  (keyUnion (m.map Prod.fst) (d.map Prod.fst)).map (fun t =>
    (t, ((List.lookup t m).getD (List.replicate w none)) ++ [List.lookup t d]))

/-- `merged = all_df[0]`. -/
def initTable (d : ATable) : MTable :=
  d.map (fun p => (p.1, [some p.2]))

/-- `for d in all_df[1:]: merged = pd.merge(merged, d, ...)`. -/
def mergeFold : List ATable → MTable → ℕ → MTable
  | [], m, _ => m
  | d :: rest, m, w => mergeFold rest (mergeStep m w d) (w + 1)

/-- The whole merge loop over the list of per-animal tables. -/
def outerMergeAll : List ATable → MTable
  | [] => []
  | d :: rest => mergeFold rest (initTable d) 1

/-- `drop_duplicates(subset=["time"])` (keep the first row of each key). -/
def dedupAux : List ℤ → MTable → MTable
  | _, [] => []
  | seen, p :: rest =>
    if p.1 ∈ seen then dedupAux seen rest
    else p :: dedupAux (p.1 :: seen) rest

/-- `drop_duplicates(subset=["time"])` from an empty seen-set. -/
def dedupByKey (l : MTable) : MTable := dedupAux [] l

/-- Insert one row into a key-sorted list of rows. -/
def insertRow (p : ℤ × List (Option ℚ)) : MTable → MTable
  | [] => [p]
  | q :: rest => if p.1 ≤ q.1 then p :: q :: rest else q :: insertRow p rest

/-- `sort_values("time")` as an insertion sort on the time key. -/
def sortByKey : MTable → MTable
  | [] => []
  | p :: rest => insertRow p (sortByKey rest)

/-- Tail of `load_group_data`: merge all (already restricted and binned)
per-animal tables, drop duplicate time rows, and sort by time. -/
def load_group_merge (ds : List ATable) : MTable :=
  sortByKey (dedupByKey (outerMergeAll ds))

/-! ## `plot_control_vs_test` statistics -/

/-- `np.nanmean` across one row of animal cells (junk `0` on an all-NaN
row, where numpy emits NaN). -/
def nanmeanRow (cells : List (Option ℚ)) : ℚ :=
  lmean (cells.filterMap id)

/-- `np.nanstd` (population, `ddof=0`) across one row of animal cells. -/
noncomputable def nanstdRow (cells : List (Option ℚ)) : ℝ :=
  Real.sqrt ((popVar (cells.filterMap id) : ℚ) : ℝ)

/-- The SEM the source computes: `np.nanstd(vals, axis=1) /
np.sqrt(vals.shape[1])`, where `shape[1]` is the TOTAL number of animal
columns, missing or not. -/
noncomputable def semRow (cells : List (Option ℚ)) (ncols : ℕ) : ℝ :=
  nanstdRow cells / Real.sqrt (ncols : ℝ)

/-- Variant following the spec's words instead of the source: standard
error with the per-time-point count of NON-MISSING animals under the square
root.  Kept only to compare against `semRow`. -/
noncomputable def sem_per_spec (cells : List (Option ℚ)) : ℝ :=
  nanstdRow cells / Real.sqrt ((cells.countP (fun o => o.isSome) : ℕ) : ℝ)

/-- Per-time-point mean and SEM curves of one group table with `ncols`
animal columns. -/
noncomputable def groupCurve (table : MTable) (ncols : ℕ) :
    List (ℤ × ℚ × ℝ) :=
  table.map (fun r => (r.1, nanmeanRow r.2, semRow r.2 ncols))

/-- Invariant of the merge loop: after merging the tables `ps`, the
accumulated table has duplicate-free time keys, its keys are exactly the
union of the merged tables' keys, and each row carries, per merged animal,
that animal's looked-up value at the row's time (missing = `none`). -/
def goodTable (ps : List ATable) (m : MTable) : Prop :=
  (m.map Prod.fst).Nodup ∧
  (∀ t : ℤ, t ∈ m.map Prod.fst ↔ ∃ d ∈ ps, t ∈ d.map Prod.fst) ∧
  (∀ p ∈ m, p.2 = ps.map (fun d => List.lookup p.1 d))

end Photometry

namespace Photometry

/-! ## Helper lemmas: list algebra -/

theorem sum_map_cast (l : List ℚ) :
    (l.map (Rat.cast : ℚ → ℝ)).sum = ((l.sum : ℚ) : ℝ) := by
  induction l with
  | nil => simp
  | cons a t ih =>
    simp only [List.map_cons, List.sum_cons, ih]
    push_cast
    ring

theorem sum_map_div {α : Type} [LinearOrderedField α] (l : List α) (c : α) :
    (l.map (fun x => x / c)).sum = l.sum / c := by
  induction l with
  | nil => simp
  | cons a t ih => simp [ih, add_div]

theorem sum_map_sub_const {α : Type} [LinearOrderedField α] (l : List α) (m : α) :
    (l.map (fun x => x - m)).sum = l.sum - l.length * m := by
  induction l with
  | nil => simp
  | cons a t ih =>
    simp only [List.map_cons, List.sum_cons, ih, List.length_cons]
    push_cast
    ring

theorem lmean_replicate {α : Type} [LinearOrderedField α] {n : ℕ} (hn : n ≠ 0)
    (c : α) : lmean (List.replicate n c) = c := by
  unfold lmean
  rw [List.sum_replicate, List.length_replicate, nsmul_eq_mul]
  have : (n : α) ≠ 0 := Nat.cast_ne_zero.2 hn
  field_simp

theorem sampleVar_nonneg {α : Type} [LinearOrderedField α] (l : List α) :
    0 ≤ sampleVar l := by
  unfold sampleVar
  rcases l with _ | ⟨a, t⟩
  · simp
  · apply div_nonneg
    · apply List.sum_nonneg
      intro x hx
      obtain ⟨y, _, rfl⟩ := List.mem_map.1 hx
      positivity
    · have : (0:α) ≤ (t.length : α) := by positivity
      simp only [List.length_cons]
      push_cast
      linarith

theorem sum_sq_all_eq {l : List ℚ} {c : ℚ}
    (h : (l.map (fun v => (v - c) ^ 2)).sum = 0) : ∀ v ∈ l, v = c := by
  induction l with
  | nil => simp
  | cons a t ih =>
    simp only [List.map_cons, List.sum_cons] at h
    have htail : 0 ≤ (t.map (fun v => (v - c) ^ 2)).sum := by
      apply List.sum_nonneg
      intro x hx
      obtain ⟨y, _, rfl⟩ := List.mem_map.1 hx
      positivity
    have hhead : (a - c) ^ 2 = 0 := by nlinarith [sq_nonneg (a - c)]
    intro v hv
    rcases List.mem_cons.1 hv with rfl | hvt
    · have := pow_eq_zero_iff (n := 2) (by norm_num) |>.1 hhead
      linarith [sub_eq_zero.1 this]
    · exact ih (by linarith) v hvt

theorem zip_self {α : Type} (l : List α) : l.zip l = l.map (fun a => (a, a)) := by
  induction l with
  | nil => rfl
  | cons a t ih => simp [List.zip_cons_cons, ih]

theorem zip_replicate_self_length {α β : Type} (l : List α) (c : β) :
    l.zip (List.replicate l.length c) = l.map (fun a => (a, c)) := by
  induction l with
  | nil => rfl
  | cons a t ih => simp [List.replicate_succ, List.zip_cons_cons, ih]

theorem sum_zip_sub {a b : List ℚ} (m : ℚ) (hlen : a.length = b.length) :
    ((a.zip b).map (fun p => p.1 - (p.2 - m))).sum
      = a.sum - b.sum + a.length * m := by
  induction a generalizing b with
  | nil =>
    cases b with
    | nil => simp
    | cons x xs => simp at hlen
  | cons x xs ih =>
    cases b with
    | nil => simp at hlen
    | cons y ys =>
      simp only [List.length_cons, Nat.succ.injEq] at hlen
      simp only [List.zip_cons_cons, List.map_cons, List.sum_cons, ih hlen,
        List.length_cons]
      push_cast
      ring

/-! ## Helper lemmas: window selection -/

theorem windowVals_map {β γ : Type} (ts : List ℚ) (ys : List β) (f : β → γ)
    (w : ℚ × ℚ) : windowVals ts (ys.map f) w = (windowVals ts ys w).map f := by
  unfold windowVals
  rw [List.zip_map_right, List.filter_map, List.map_map, List.map_map]
  rfl

theorem filter_zip_fst {β : Type} (p : ℚ → Bool) :
    ∀ (ts : List ℚ) (ys : List β), ts.length = ys.length →
      ((ts.zip ys).filter (fun q => p q.1)).length = ts.countP p := by
  intro ts
  induction ts with
  | nil => intro ys h; simp
  | cons t ts ih =>
    intro ys h
    cases ys with
    | nil => simp at h
    | cons y ys =>
      simp only [List.length_cons, Nat.succ.injEq] at h
      rw [List.zip_cons_cons, List.filter_cons, List.countP_cons]
      by_cases hp : p t
      · simp [hp, ih ys h]
      · simp [hp, ih ys h]

theorem windowVals_length {β : Type} (ts : List ℚ) (ys : List β) (w : ℚ × ℚ)
    (hlen : ts.length = ys.length) :
    (windowVals ts ys w).length = maskCount ts w := by
  unfold windowVals maskCount
  rw [List.length_map]
  exact filter_zip_fst (fun s => decide (w.1 ≤ s ∧ s ≤ w.2)) ts ys hlen

end Photometry

namespace Photometry

/-! ## Helper lemmas: `olsFitted` / `motionCorrected` -/

theorem olsFitted_length (x y : List ℚ) : (olsFitted x y).length = x.length := by
  unfold olsFitted
  dsimp only
  split
  · rw [List.length_replicate]
  · rw [List.length_map]

theorem olsFitted_self (x : List ℚ) : olsFitted x x = x := by
  unfold olsFitted
  dsimp only
  rw [zip_self x, List.map_map]
  have hsq : ((fun p : ℚ × ℚ => (p.1 - lmean x) * (p.2 - lmean x)) ∘ fun a : ℚ => (a, a))
      = fun v : ℚ => (v - lmean x) ^ 2 := by
    funext a
    simp [Function.comp, sq]
  rw [hsq]
  by_cases h : (x.map (fun v => (v - lmean x) ^ 2)).sum = 0
  · rw [if_pos h]
    exact (List.eq_replicate_length.2 (sum_sq_all_eq h)).symm
  · rw [if_neg h]
    simp only [div_self h, one_mul]
    simp

theorem motionCorrected_self (x : List ℚ) :
    motionCorrected x x = List.replicate x.length (lmean x) := by
  unfold motionCorrected
  rw [olsFitted_self, zip_self x, List.map_map]
  have hc : ((fun p : ℚ × ℚ => p.1 - (p.2 - lmean x)) ∘ fun a : ℚ => (a, a))
      = Function.const ℚ (lmean x) := by
    funext a
    simp [Function.comp, Function.const]
  rw [hc, List.map_const]

theorem lmean_motionCorrected (y x : List ℚ) (hlen : x.length = y.length) :
    lmean (motionCorrected y x) = lmean y := by
  have hfl : (olsFitted x y).length = y.length := by
    rw [olsFitted_length, hlen]
  unfold motionCorrected
  rcases Nat.eq_zero_or_pos y.length with hy | hy
  · have hnil : y = [] := List.length_eq_zero.1 hy
    subst hnil
    simp [lmean]
  · have hyne : ((y.length : ℚ)) ≠ 0 := by
      exact_mod_cast Nat.pos_iff_ne_zero.1 hy
    unfold lmean
    rw [List.length_map, List.length_zip, hfl, min_self,
      sum_zip_sub ((olsFitted x y).sum / ((y.length : ℚ))) hfl.symm]
    field_simp

end Photometry

namespace Photometry

/-! ## Claims C1, C8 (photobleaching), C4, C5 (motion correction) -/

/-- Claim C1, amended: when both closed windows hold at least 5 samples,
`correct_photobleaching` returns `value[i] - (slope * time[i] + intercept)`
with `pre_mean`/`post_mean` the window means,
`slope = (post_mean - pre_mean) / (post_window.END - pre_window.start)`
(the source divides by the post window's end, not its start as the claim
stated), and `intercept = pre_mean - slope * pre_window.start`. -/
theorem photobleach_formula (ts ys : List ℚ) (pre post : ℚ × ℚ)
    (h1 : 5 ≤ maskCount ts pre) (h2 : 5 ≤ maskCount ts post) :
    correct_photobleaching ts ys pre post = .ok ((ts.zip ys).map (fun p =>
      p.2 - ((lmean (windowVals ts ys post) - lmean (windowVals ts ys pre))
          / (post.2 - pre.1) * p.1
        + (lmean (windowVals ts ys pre)
          - (lmean (windowVals ts ys post) - lmean (windowVals ts ys pre))
            / (post.2 - pre.1) * pre.1)))) := by
  unfold correct_photobleaching
  rw [if_neg (by omega)]

/-- Counterexample to claim C1 as stated: on a concrete series whose two
windows both hold 5 samples, the source's output differs from the output
prescribed by the spec's slope `(post_mean - pre_mean) / (post_window.start
- pre_window.start)`. -/
theorem photobleach_slope_cex :
    correct_photobleaching [0, 1, 2, 3, 4, 10, 11, 12, 13, 14]
        [0, 0, 0, 0, 0, 1, 1, 1, 1, 1] (0, 4) (10, 14)
      = .ok [0, -(1/14), -(1/7), -(3/14), -(2/7), 2/7, 3/14, 1/7, 1/14, 0] ∧
    photobleach_per_spec [0, 1, 2, 3, 4, 10, 11, 12, 13, 14]
        [0, 0, 0, 0, 0, 1, 1, 1, 1, 1] (0, 4) (10, 14)
      = .ok [0, -(1/10), -(1/5), -(3/10), -(2/5), 0, -(1/10), -(1/5), -(3/10), -(2/5)] ∧
    ([0, -(1/14), -(1/7), -(3/14), -(2/7), 2/7, 3/14, 1/7, 1/14, 0] : List ℚ)
      ≠ [0, -(1/10), -(1/5), -(3/10), -(2/5), 0, -(1/10), -(1/5), -(3/10), -(2/5)] := by
  refine ⟨?_, ?_, ?_⟩
  · unfold correct_photobleaching
    rw [if_neg (by decide)]
    norm_num [windowVals, lmean, List.filter_cons]
  · unfold photobleach_per_spec
    rw [if_neg (by decide)]
    norm_num [windowVals, lmean, List.filter_cons]
  · norm_num

/-- Witness for `photobleach_formula` at a concrete input. -/
theorem photobleach_formula_witness :
    correct_photobleaching [0, 1, 2, 3, 4, 10, 11, 12, 13, 14]
        [0, 0, 0, 0, 0, 1, 1, 1, 1, 1] (0, 4) (10, 14)
      = .ok (([(0:ℚ), 1, 2, 3, 4, 10, 11, 12, 13, 14].zip
            [(0:ℚ), 0, 0, 0, 0, 1, 1, 1, 1, 1]).map (fun p =>
        p.2 - ((lmean (windowVals [0, 1, 2, 3, 4, 10, 11, 12, 13, 14]
                  [0, 0, 0, 0, 0, 1, 1, 1, 1, 1] (10, 14))
            - lmean (windowVals [0, 1, 2, 3, 4, 10, 11, 12, 13, 14]
                  [0, 0, 0, 0, 0, 1, 1, 1, 1, 1] (0, 4))) / (14 - 0) * p.1
          + (lmean (windowVals [0, 1, 2, 3, 4, 10, 11, 12, 13, 14]
                  [0, 0, 0, 0, 0, 1, 1, 1, 1, 1] (0, 4))
            - (lmean (windowVals [0, 1, 2, 3, 4, 10, 11, 12, 13, 14]
                  [0, 0, 0, 0, 0, 1, 1, 1, 1, 1] (10, 14))
              - lmean (windowVals [0, 1, 2, 3, 4, 10, 11, 12, 13, 14]
                  [0, 0, 0, 0, 0, 1, 1, 1, 1, 1] (0, 4))) / (14 - 0) * 0)))) :=
  photobleach_formula _ _ _ _ (by decide) (by decide)

/-- Claim C8: `correct_photobleaching` fails with its insufficient-baseline
error exactly when the closed pre- or post-window holds fewer than 5
samples of the time axis, and on success the output series has the length
of the input value series. -/
theorem photobleach_error_cases (ts ys : List ℚ) (pre post : ℚ × ℚ)
    (hlen : ts.length = ys.length) :
    (correct_photobleaching ts ys pre post = .error .insufficientBaseline
      ↔ maskCount ts pre < 5 ∨ maskCount ts post < 5) ∧
    ∀ out, correct_photobleaching ts ys pre post = .ok out →
      out.length = ys.length := by
  constructor
  · by_cases hc : maskCount ts pre < 5 ∨ maskCount ts post < 5
    · simp [correct_photobleaching, hc]
    · simp [correct_photobleaching, hc]
  · intro out hout
    by_cases hc : maskCount ts pre < 5 ∨ maskCount ts post < 5
    · simp [correct_photobleaching, hc] at hout
    · simp only [correct_photobleaching, if_neg hc, Except.ok.injEq] at hout
      rw [← hout, List.length_map, List.length_zip, hlen, min_self]

/-- Witness for `photobleach_error_cases` at a concrete input. -/
theorem photobleach_error_cases_witness :
    (correct_photobleaching [0, 1, 2, 3, 4, 10, 11, 12, 13, 14]
        [5, 5, 5, 5, 5, 9, 9, 9, 9, 9] (0, 4) (10, 14)
        = .error .insufficientBaseline
      ↔ maskCount [0, 1, 2, 3, 4, 10, 11, 12, 13, 14] (0, 4) < 5
        ∨ maskCount [0, 1, 2, 3, 4, 10, 11, 12, 13, 14] (10, 14) < 5) ∧
    ∀ out, correct_photobleaching [0, 1, 2, 3, 4, 10, 11, 12, 13, 14]
        [5, 5, 5, 5, 5, 9, 9, 9, 9, 9] (0, 4) (10, 14) = .ok out →
      out.length = [(5:ℚ), 5, 5, 5, 5, 9, 9, 9, 9, 9].length :=
  photobleach_error_cases _ _ _ _ (by decide)

/-- Claim C4, amended: with equal lengths of at least 10,
`correct_motion` returns the pair whose FIRST component is the unchanged
reference series (the claim stated it was the second) and whose second is
`signal - (fitted - mean(fitted))` for the least-squares fitted values;
consequently the corrected signal keeps the arithmetic mean of the input
signal. -/
theorem correct_motion_spec (fluo465 fluo405 : List ℚ)
    (hlen : fluo405.length = fluo465.length) (h10 : 10 ≤ fluo405.length) :
    correct_motion fluo465 fluo405
      = .ok (fluo405,
          (fluo465.zip (olsFitted fluo405 fluo465)).map
            (fun p => p.1 - (p.2 - lmean (olsFitted fluo405 fluo465)))) ∧
    lmean (motionCorrected fluo465 fluo405) = lmean fluo465 := by
  constructor
  · unfold correct_motion
    rw [if_neg (by omega)]
    rfl
  · exact lmean_motionCorrected _ _ hlen

/-- Counterexample to claim C4 as stated: on a concrete pair of length-10
series the SECOND component of the returned pair is the corrected signal,
not the unchanged reference series (which is returned first). -/
theorem motion_output_order_cex :
    correct_motion [0, 1, 2, 3, 4, 5, 6, 7, 8, 9] [0, 1, 2, 3, 4, 5, 6, 7, 8, 9]
      = .ok ([0, 1, 2, 3, 4, 5, 6, 7, 8, 9], List.replicate 10 ((9 : ℚ) / 2)) ∧
    List.replicate 10 ((9 : ℚ) / 2) ≠ [(0:ℚ), 1, 2, 3, 4, 5, 6, 7, 8, 9] := by
  constructor
  · unfold correct_motion
    rw [if_neg (by norm_num), motionCorrected_self]
    norm_num [lmean]
  · norm_num [List.replicate_succ]

/-- Witness for `correct_motion_spec` at a concrete input. -/
theorem correct_motion_spec_witness :
    correct_motion [1, 3, 5, 7, 9, 11, 13, 15, 17, 19] [0, 1, 2, 3, 4, 5, 6, 7, 8, 9]
      = .ok ([0, 1, 2, 3, 4, 5, 6, 7, 8, 9],
          ([(1:ℚ), 3, 5, 7, 9, 11, 13, 15, 17, 19].zip
              (olsFitted [0, 1, 2, 3, 4, 5, 6, 7, 8, 9]
                [1, 3, 5, 7, 9, 11, 13, 15, 17, 19])).map
            (fun p => p.1 - (p.2 - lmean (olsFitted [0, 1, 2, 3, 4, 5, 6, 7, 8, 9]
                [1, 3, 5, 7, 9, 11, 13, 15, 17, 19])))) ∧
    lmean (motionCorrected [1, 3, 5, 7, 9, 11, 13, 15, 17, 19]
        [0, 1, 2, 3, 4, 5, 6, 7, 8, 9])
      = lmean [(1:ℚ), 3, 5, 7, 9, 11, 13, 15, 17, 19] :=
  correct_motion_spec _ _ (by decide) (by decide)

/-- Claim C5, amended: on a reference identical to a signal of length at
least 10, the corrected signal is the constant series at the signal's mean,
so its variance is exactly zero, and its mean equals the INPUT signal's
mean (zero only when that mean is zero — the re-centering preserves the
mean, it does not null it). -/
theorem motion_identical_reference (x : List ℚ) (h10 : 10 ≤ x.length) :
    correct_motion x x = .ok (x, List.replicate x.length (lmean x)) ∧
    popVar (List.replicate x.length (lmean x)) = 0 ∧
    lmean (List.replicate x.length (lmean x)) = lmean x := by
  have hn : x.length ≠ 0 := by omega
  refine ⟨?_, ?_, ?_⟩
  · unfold correct_motion
    rw [if_neg (by omega), motionCorrected_self]
  · unfold popVar
    rw [lmean_replicate hn]
    simp
  · exact lmean_replicate hn _

/-- Counterexample to claim C5 as stated: with signal = reference =
`[1, ..., 10]` the corrected signal is the constant `11/2`, whose mean is
`11/2`, not near zero. -/
theorem motion_identical_mean_cex :
    correct_motion [1, 2, 3, 4, 5, 6, 7, 8, 9, 10] [1, 2, 3, 4, 5, 6, 7, 8, 9, 10]
      = .ok ([1, 2, 3, 4, 5, 6, 7, 8, 9, 10], List.replicate 10 ((11 : ℚ) / 2)) ∧
    lmean (List.replicate 10 ((11 : ℚ) / 2)) ≠ 0 := by
  constructor
  · unfold correct_motion
    rw [if_neg (by norm_num), motionCorrected_self]
    norm_num [lmean]
  · norm_num [lmean, List.sum_replicate]

/-- Witness for `motion_identical_reference` at a concrete input. -/
theorem motion_identical_reference_witness :
    correct_motion [2, 4, 6, 8, 10, 12, 14, 16, 18, 20]
        [2, 4, 6, 8, 10, 12, 14, 16, 18, 20]
      = .ok ([2, 4, 6, 8, 10, 12, 14, 16, 18, 20],
          List.replicate ([(2:ℚ), 4, 6, 8, 10, 12, 14, 16, 18, 20].length)
            (lmean [(2:ℚ), 4, 6, 8, 10, 12, 14, 16, 18, 20])) ∧
    popVar (List.replicate ([(2:ℚ), 4, 6, 8, 10, 12, 14, 16, 18, 20].length)
        (lmean [(2:ℚ), 4, 6, 8, 10, 12, 14, 16, 18, 20])) = 0 ∧
    lmean (List.replicate ([(2:ℚ), 4, 6, 8, 10, 12, 14, 16, 18, 20].length)
        (lmean [(2:ℚ), 4, 6, 8, 10, 12, 14, 16, 18, 20]))
      = lmean [(2:ℚ), 4, 6, 8, 10, 12, 14, 16, 18, 20] :=
  motion_identical_reference _ (by decide)

end Photometry

namespace Photometry

/-! ## Helper lemmas: standardized sums -/

theorem sum_standardized (l : List ℚ) (m s : ℝ) :
    (l.map (fun q : ℚ => ((q : ℝ) - m) / s)).sum
      = (((l.sum : ℚ) : ℝ) - l.length * m) / s := by
  induction l with
  | nil => simp
  | cons a t ih =>
    simp only [List.map_cons, List.sum_cons, ih, List.length_cons]
    push_cast
    ring

theorem sum_sq_div (l : List ℚ) (m s : ℝ) :
    (l.map (fun q : ℚ => (((q : ℝ) - m) / s) ^ 2)).sum
      = (l.map (fun q : ℚ => ((q : ℝ) - m) ^ 2)).sum / s ^ 2 := by
  induction l with
  | nil => simp
  | cons a t ih =>
    simp only [List.map_cons, List.sum_cons, ih]
    ring

theorem sum_sq_cast (l : List ℚ) (m : ℚ) :
    (l.map (fun q : ℚ => ((q : ℝ) - ((m : ℚ) : ℝ)) ^ 2)).sum
      = (((l.map (fun q => (q - m) ^ 2)).sum : ℚ) : ℝ) := by
  induction l with
  | nil => simp
  | cons a t ih =>
    simp only [List.map_cons, List.sum_cons, ih]
    push_cast
    ring

theorem sqrt_cast_eq_zero_iff {v : ℚ} (hnn : 0 ≤ v) :
    Real.sqrt ((v : ℚ) : ℝ) = 0 ↔ v = 0 := by
  rw [Real.sqrt_eq_zero']
  constructor
  · intro h
    have h0 : ((v : ℚ) : ℝ) = 0 := le_antisymm h (by exact_mod_cast hnn)
    exact_mod_cast h0
  · intro h
    rw [h]
    simp

/-! ## Claims C6 and C2 (Z-score normalization) -/

/-- Claim C6: `transform_to_zscore` fails with the insufficient-baseline
error exactly when fewer than 5 samples of the time axis fall in the closed
baseline window, fails with the zero-variance error exactly when at least 5
samples fall in the window and the sample standard deviation `sigma` of the
in-window values is exactly 0, and otherwise returns
`(value[i] - mu) / sigma` for every i of the full series. -/
theorem zscore_error_cases (ts ys : List ℚ) (w : ℚ × ℚ) :
    (transform_to_zscore ts ys w = .error .insufficientBaseline
      ↔ maskCount ts w < 5) ∧
    (transform_to_zscore ts ys w = .error .zeroVariance
      ↔ 5 ≤ maskCount ts w
        ∧ Real.sqrt ((sampleVar (windowVals ts ys w) : ℚ) : ℝ) = 0) ∧
    (5 ≤ maskCount ts w →
      Real.sqrt ((sampleVar (windowVals ts ys w) : ℚ) : ℝ) ≠ 0 →
      transform_to_zscore ts ys w = .ok (ys.map (fun y : ℚ =>
        ((y : ℝ) - ((lmean (windowVals ts ys w) : ℚ) : ℝ))
          / Real.sqrt ((sampleVar (windowVals ts ys w) : ℚ) : ℝ)))) := by
  have hsq : Real.sqrt ((sampleVar (windowVals ts ys w) : ℚ) : ℝ) = 0
      ↔ sampleVar (windowVals ts ys w) = 0 :=
    sqrt_cast_eq_zero_iff (sampleVar_nonneg _)
  refine ⟨?_, ?_, ?_⟩
  · by_cases h5 : maskCount ts w < 5
    · simp [transform_to_zscore, h5]
    · by_cases hv : sampleVar (windowVals ts ys w) = 0
      · simp [transform_to_zscore, h5, hv]
      · simp [transform_to_zscore, h5, hv]
  · rw [hsq]
    by_cases h5 : maskCount ts w < 5
    · simp [transform_to_zscore, h5, Nat.not_le.2 h5]
    · by_cases hv : sampleVar (windowVals ts ys w) = 0
      · simp [transform_to_zscore, h5, hv, Nat.not_lt.1 h5]
      · simp [transform_to_zscore, h5, hv]
  · intro h5 hsd
    have hv : sampleVar (windowVals ts ys w) ≠ 0 := fun h => hsd (hsq.2 h)
    unfold transform_to_zscore
    rw [if_neg (by omega)]
    dsimp only
    rw [if_neg hv]

/-- Witness for `zscore_error_cases`: its success case evaluated at a
concrete series whose baseline window has mean 1 and sample variance 1. -/
theorem zscore_error_cases_witness :
    transform_to_zscore [0, 1, 2, 3, 4] [0, 0, 1, 2, 2] (0, 4)
      = .ok ([(0:ℚ), 0, 1, 2, 2].map (fun y : ℚ =>
        ((y : ℝ) - ((lmean (windowVals [0, 1, 2, 3, 4] [0, 0, 1, 2, 2] (0, 4)) : ℚ) : ℝ))
          / Real.sqrt ((sampleVar (windowVals [0, 1, 2, 3, 4] [0, 0, 1, 2, 2] (0, 4)) : ℚ) : ℝ))) := by
  have hv : sampleVar (windowVals [0, 1, 2, 3, 4] [(0:ℚ), 0, 1, 2, 2] (0, 4)) = 1 := by
    norm_num [windowVals, sampleVar, lmean, List.filter_cons]
  exact (zscore_error_cases [0, 1, 2, 3, 4] [0, 0, 1, 2, 2] (0, 4)).2.2
    (by decide) (by rw [hv]; norm_num)

theorem lmean_standardized (l : List ℚ) (hn : l.length ≠ 0) (s : ℝ) :
    lmean (l.map (fun q : ℚ => ((q : ℝ) - ((lmean l : ℚ) : ℝ)) / s)) = 0 := by
  have hnR : ((l.length : ℝ)) ≠ 0 := Nat.cast_ne_zero.2 hn
  have hz : (((l.sum : ℚ) : ℝ) - (l.length : ℝ) * ((lmean l : ℚ) : ℝ)) = 0 := by
    have hmu : ((lmean l : ℚ) : ℝ) = ((l.sum : ℚ) : ℝ) / ((l.length : ℝ)) := by
      unfold lmean
      push_cast
      ring
    rw [hmu]
    field_simp
  have hsum : (l.map (fun q : ℚ => ((q : ℝ) - ((lmean l : ℚ) : ℝ)) / s)).sum = 0 := by
    rw [sum_standardized, hz, zero_div]
  show (l.map (fun q : ℚ => ((q : ℝ) - ((lmean l : ℚ) : ℝ)) / s)).sum
      / ((l.map (fun q : ℚ => ((q : ℝ) - ((lmean l : ℚ) : ℝ)) / s)).length : ℝ) = 0
  rw [hsum, zero_div]

theorem standardize_var (l : List ℚ) (h2 : 2 ≤ l.length) (m : ℚ) (s : ℝ)
    (hm : m = lmean l)
    (hs2 : s ^ 2 = (((l.map (fun q => (q - lmean l) ^ 2)).sum : ℚ) : ℝ)
      / ((l.length : ℝ) - 1))
    (hnum : (l.map (fun q => (q - lmean l) ^ 2)).sum ≠ 0) :
    sampleVar (l.map (fun q : ℚ => ((q : ℝ) - ((m : ℚ) : ℝ)) / s)) = 1 := by
  subst hm
  have hn : l.length ≠ 0 := by omega
  have hn1 : ((l.length : ℝ) - 1) ≠ 0 := by
    have : (2:ℝ) ≤ (l.length : ℝ) := by exact_mod_cast h2
    linarith
  have hnumR : (((l.map (fun q => (q - lmean l) ^ 2)).sum : ℚ) : ℝ) ≠ 0 := by
    exact_mod_cast hnum
  have hmean0 := lmean_standardized l hn s
  unfold sampleVar
  rw [hmean0]
  simp only [sub_zero, List.length_map, List.map_map]
  rw [show ((fun v : ℝ => v ^ 2) ∘ (fun q : ℚ => ((q : ℝ) - ((lmean l : ℚ) : ℝ)) / s))
      = fun q : ℚ => (((q : ℝ) - ((lmean l : ℚ) : ℝ)) / s) ^ 2 from rfl]
  rw [sum_sq_div, sum_sq_cast, hs2]
  rw [div_div_eq_mul_div, mul_comm, mul_div_assoc, div_self hnumR, mul_one,
    div_self hn1]

/-- Claim C2: whenever `transform_to_zscore` succeeds (on aligned series),
the returned series restricted to the baseline window has arithmetic mean 0
and sample standard deviation (divisor n-1) exactly 1, `mu`/`sigma` being
the in-window mean and sample standard deviation. -/
theorem zscore_baseline_normalized (ts ys : List ℚ) (w : ℚ × ℚ) (zs : List ℝ)
    (hlen : ts.length = ys.length)
    (h : transform_to_zscore ts ys w = .ok zs) :
    lmean (windowVals ts zs w) = 0 ∧
    Real.sqrt (sampleVar (windowVals ts zs w)) = 1 := by
  by_cases h5 : maskCount ts w < 5
  · simp [transform_to_zscore, h5] at h
  by_cases hvz : sampleVar (windowVals ts ys w) = 0
  · simp [transform_to_zscore, h5, hvz] at h
  have hzs : zs = ys.map (fun y : ℚ =>
      ((y : ℝ) - ((lmean (windowVals ts ys w) : ℚ) : ℝ))
        / Real.sqrt ((sampleVar (windowVals ts ys w) : ℚ) : ℝ)) := by
    simp only [transform_to_zscore, if_neg h5, if_neg hvz, Except.ok.injEq] at h
    exact h.symm
  subst hzs
  rw [windowVals_map]
  have hn : (windowVals ts ys w).length = maskCount ts w :=
    windowVals_length ts ys w hlen
  have hne : (windowVals ts ys w).length ≠ 0 := by omega
  constructor
  · exact lmean_standardized (windowVals ts ys w) hne _
  · have hvpos : (0:ℝ) < ((sampleVar (windowVals ts ys w) : ℚ) : ℝ) := by
      exact_mod_cast lt_of_le_of_ne (sampleVar_nonneg _) (Ne.symm hvz)
    have hvq : ((sampleVar (windowVals ts ys w) : ℚ) : ℝ)
        = ((((windowVals ts ys w).map
              (fun q => (q - lmean (windowVals ts ys w)) ^ 2)).sum : ℚ) : ℝ)
          / (((windowVals ts ys w).length : ℝ) - 1) := by
      unfold sampleVar
      push_cast
      ring
    have hs2 : Real.sqrt ((sampleVar (windowVals ts ys w) : ℚ) : ℝ) ^ 2
        = ((((windowVals ts ys w).map
              (fun q => (q - lmean (windowVals ts ys w)) ^ 2)).sum : ℚ) : ℝ)
          / (((windowVals ts ys w).length : ℝ) - 1) := by
      rw [Real.sq_sqrt (le_of_lt hvpos)]
      exact hvq
    have hnum : ((windowVals ts ys w).map
        (fun q => (q - lmean (windowVals ts ys w)) ^ 2)).sum ≠ 0 := by
      intro h0
      apply hvz
      rw [show sampleVar (windowVals ts ys w)
          = ((windowVals ts ys w).map
              (fun q => (q - lmean (windowVals ts ys w)) ^ 2)).sum
            / (((windowVals ts ys w).length : ℚ) - 1) from rfl, h0, zero_div]
    rw [standardize_var (windowVals ts ys w) (by omega)
      (lmean (windowVals ts ys w)) _ rfl hs2 hnum, Real.sqrt_one]

/-- Witness for `zscore_baseline_normalized` at a concrete series: baseline
values `[0, 0, 1, 2, 2]` have mean 1 and sample variance 1, so the Z-scored
series is `[-1, -1, 0, 1, 1]`. -/
theorem zscore_baseline_normalized_witness :
    transform_to_zscore [0, 1, 2, 3, 4] [0, 0, 1, 2, 2] (0, 4)
      = .ok [-1, -1, 0, 1, 1] ∧
    lmean (windowVals [0, 1, 2, 3, 4] ([-1, -1, 0, 1, 1] : List ℝ) (0, 4)) = 0 ∧
    Real.sqrt (sampleVar (windowVals [0, 1, 2, 3, 4] ([-1, -1, 0, 1, 1] : List ℝ) (0, 4))) = 1 := by
  have hv : sampleVar (windowVals [0, 1, 2, 3, 4] [(0:ℚ), 0, 1, 2, 2] (0, 4)) = 1 := by
    norm_num [windowVals, sampleVar, lmean, List.filter_cons]
  have hmu : lmean (windowVals [0, 1, 2, 3, 4] [(0:ℚ), 0, 1, 2, 2] (0, 4)) = 1 := by
    norm_num [windowVals, lmean, List.filter_cons]
  have h : transform_to_zscore [0, 1, 2, 3, 4] [0, 0, 1, 2, 2] (0, 4)
      = .ok [-1, -1, 0, 1, 1] := by
    unfold transform_to_zscore
    rw [if_neg (by decide)]
    dsimp only
    rw [if_neg (by rw [hv]; norm_num)]
    rw [hv, hmu]
    norm_num [Real.sqrt_one]
  refine ⟨h, ?_, ?_⟩
  · exact (zscore_baseline_normalized [0, 1, 2, 3, 4] [0, 0, 1, 2, 2] (0, 4)
      [-1, -1, 0, 1, 1] rfl h).1
  · exact (zscore_baseline_normalized [0, 1, 2, 3, 4] [0, 0, 1, 2, 2] (0, 4)
      [-1, -1, 0, 1, 1] rfl h).2

end Photometry

namespace Photometry

/-! ## Claims C10 and C7 (per-animal pipeline gates) -/

/-- Claim C10: an input file whose loaded record, after dropping rows with
a missing time, signal or reference value, has fewer than 10 rows is
skipped at the pipeline entrance — before any correction stage — and
contributes no output file. -/
theorem min_rows_gate (cfg : Config)
    (raw : List (Option ℚ × Option ℚ × Option ℚ))
    (h : (dropna raw).length < 10) :
    process_file cfg raw = .skipped .tooFewRows ∧
    resultOutput (process_file cfg raw) = none := by
  have hp : process_file cfg raw = .skipped .tooFewRows := by
    unfold process_file process_record
    rw [if_pos h]
  exact ⟨hp, by rw [hp]; rfl⟩

/-- Witness for `min_rows_gate`: a two-row file with one row lost to
`dropna`. -/
theorem min_rows_gate_witness :
    process_file ⟨(1500, 2100), (100, 600), 500, 0, 1/5⟩
        [(some 1, some 2, none), (some 1, some 2, some 3)]
      = .skipped .tooFewRows ∧
    resultOutput (process_file ⟨(1500, 2100), (100, 600), 500, 0, 1/5⟩
        [(some 1, some 2, none), (some 1, some 2, some 3)]) = none :=
  min_rows_gate _ _ (by decide)

/-- Claim C7: after debleaching both channels, the pipeline computes the
NaN fraction over the two debleached channels and, when it exceeds the
configured threshold, skips the record: no later stage runs and no output
is produced.  For equal-length channels the source's mean of the two
per-column NaN fractions is the combined fraction across both channels,
and in `process_folder` a skipped record adds nothing to the saved count
or to the written outputs. -/
theorem nan_gate_skips (cfg : Config) (ts f465 af405 : List ℚ)
    (pbc465 pbc405 : List (Option ℚ))
    (h : nanFrac pbc465 pbc405 > cfg.nanThreshold) :
    pipelineAfterDebleach cfg ts f465 af405 pbc465 pbc405
      = .skipped .tooManyNaNs ∧
    resultOutput (pipelineAfterDebleach cfg ts f465 af405 pbc465 pbc405)
      = none ∧
    (pbc465.length = pbc405.length →
      nanFrac pbc465 pbc405
        = ((countNone pbc465 : ℚ) + (countNone pbc405 : ℚ))
          / ((pbc465.length : ℚ) + (pbc405.length : ℚ))) ∧
    (∀ (fs1 fs2 : List (List (Option ℚ × Option ℚ × Option ℚ)))
        (raw : List (Option ℚ × Option ℚ × Option ℚ)) (r : SkipReason),
      process_file cfg raw = .skipped r →
      process_folder cfg (fs1 ++ raw :: fs2)
        = process_folder cfg (fs1 ++ fs2)) := by
  have hskip : pipelineAfterDebleach cfg ts f465 af405 pbc465 pbc405
      = .skipped .tooManyNaNs := by
    unfold pipelineAfterDebleach
    rw [if_pos h]
  refine ⟨hskip, by rw [hskip]; rfl, ?_, ?_⟩
  · intro hl
    unfold nanFrac fracNone
    rw [hl, div_add_div_same, div_div,
      show ((pbc405.length : ℚ)) + (pbc405.length : ℚ)
        = (pbc405.length : ℚ) * 2 from by ring]
  · intro fs1 fs2 raw r hsk
    unfold process_folder
    rw [List.foldl_append, List.foldl_append, List.foldl_cons, hsk]

/-- Witness for `nan_gate_skips`: two of six cells are NaN, a fraction of
1/3, above the default threshold 1/5. -/
theorem nan_gate_skips_witness :
    pipelineAfterDebleach ⟨(1500, 2100), (100, 600), 500, 0, 1/5⟩ [] [] []
        [none, some 1, none] [some 1, some 1, some 1]
      = .skipped .tooManyNaNs :=
  (nan_gate_skips _ _ _ _ _ _
    (by norm_num [nanFrac, fracNone, countNone, List.countP_cons])).1

end Photometry

namespace Photometry

/-! ## Claim C3 (cross-group mean and SEM) -/

/-- Claim C3, amended: at each time point the comparison computes the
cross-animal mean over the non-missing cells, and the SEM as the
population-style (divisor n) standard deviation of the non-missing cells
divided by the square root of the TOTAL number of animal columns
(`shape[1]`) — not of the per-time-point count of non-missing animals, as
the claim stated.  Appending a missing cell changes neither the mean nor
the standard deviation (they ignore missing cells). -/
theorem group_curve_stats (table : MTable) (ncols : ℕ) :
    groupCurve table ncols = table.map (fun r =>
      (r.1, lmean (r.2.filterMap id),
        Real.sqrt ((popVar (r.2.filterMap id) : ℚ) : ℝ) / Real.sqrt (ncols : ℝ))) ∧
    ∀ cells : List (Option ℚ),
      nanmeanRow (none :: cells) = nanmeanRow cells ∧
      nanstdRow (none :: cells) = nanstdRow cells := by
  constructor
  · rfl
  · intro cells
    constructor
    · simp [nanmeanRow]
    · simp [nanstdRow]

/-- Counterexample to claim C3 as stated: at a time point where two of four
animals are missing and the non-missing values are 1 and 3 (nanstd 1), the
source computes SEM `1 / √4 = 1/2`, while the claim's formula gives
`1 / √2 ≠ 1/2`. -/
theorem group_sem_cex :
    semRow [some 1, some 3, none, none] 4 = 1 / 2 ∧
    sem_per_spec [some 1, some 3, none, none] = 1 / Real.sqrt 2 ∧
    (1 : ℝ) / Real.sqrt 2 ≠ 1 / 2 := by
  have hstd : nanstdRow [some 1, some 3, none, none] = 1 := by
    unfold nanstdRow
    rw [show (([some (1:ℚ), some 3, none, none]).filterMap id) = [1, 3] from rfl,
      show popVar [(1:ℚ), 3] = 1 from by norm_num [popVar, lmean]]
    norm_num [Real.sqrt_one]
  have hs2 : Real.sqrt 2 ≠ 2 := by
    intro h
    have hsq := Real.sq_sqrt (by norm_num : (0:ℝ) ≤ 2)
    rw [h] at hsq
    norm_num at hsq
  refine ⟨?_, ?_, ?_⟩
  · unfold semRow
    rw [hstd, show ((4:ℕ) : ℝ) = 2 ^ 2 from by norm_num,
      Real.sqrt_sq (by norm_num : (0:ℝ) ≤ 2)]
  · unfold sem_per_spec
    rw [hstd]
    norm_num [List.countP_cons]
  · intro heq
    apply hs2
    have h0 : Real.sqrt 2 ≠ 0 := by
      intro h0
      rw [h0] at heq
      norm_num at heq
    field_simp at heq

end Photometry

namespace Photometry

/-! ## Helper lemmas: `List.lookup` on tables with duplicate-free keys -/

theorem lookup_cons_ne {β : Type} {t k : ℤ} {b : β} {es : List (ℤ × β)}
    (h : t ≠ k) : List.lookup t ((k, b) :: es) = List.lookup t es := by
  rw [List.lookup_cons]
  rw [show (t == k) = false from beq_eq_false_iff_ne.2 h]

theorem lookupNoneKeys {β : Type} (t : ℤ) (d : List (ℤ × β)) :
    List.lookup t d = none ↔ t ∉ d.map Prod.fst := by
  rw [List.lookup_eq_none_iff]
  simp only [bne_iff_ne, ne_eq]
  constructor
  · intro h hmem
    obtain ⟨p, hp, hfst⟩ := List.mem_map.1 hmem
    exact (h p hp) hfst.symm
  · intro h p hp heq
    exact h (List.mem_map.2 ⟨p, hp, heq.symm⟩)

theorem lookup_mem {β : Type} {t : ℤ} {v : β} {d : List (ℤ × β)}
    (h : List.lookup t d = some v) : (t, v) ∈ d := by
  obtain ⟨l1, l2, rfl, -⟩ := List.lookup_eq_some_iff.1 h
  exact List.mem_append_right _ (List.mem_cons_self _ _)

theorem lookup_of_mem_nodup {β : Type} {t : ℤ} {v : β} :
    ∀ {d : List (ℤ × β)}, (t, v) ∈ d → (d.map Prod.fst).Nodup →
      List.lookup t d = some v := by
  intro d
  induction d with
  | nil => intro h _; simp at h
  | cons p rest ih =>
    obtain ⟨k, b⟩ := p
    intro hm hnd
    simp only [List.map_cons, List.nodup_cons] at hnd
    rcases List.mem_cons.1 hm with heq | htail
    · injection heq with h1 h2
      subst h1
      subst h2
      exact List.lookup_cons_self
    · have hne : t ≠ k := by
        intro h
        subst h
        exact hnd.1 (List.mem_map.2 ⟨(t, v), htail, rfl⟩)
      rw [lookup_cons_ne hne]
      exact ih htail hnd.2

/-! ## Helper lemmas: outer-merge key sets -/

theorem keyUnion_mem (ks ls : List ℤ) (t : ℤ) :
    t ∈ keyUnion ks ls ↔ t ∈ ks ∨ t ∈ ls := by
  simp only [keyUnion, List.mem_append, List.mem_filter, decide_eq_true_eq]
  constructor
  · rintro (h | ⟨h, _⟩)
    · exact Or.inl h
    · exact Or.inr h
  · rintro (h | h)
    · exact Or.inl h
    · by_cases hk : t ∈ ks
      · exact Or.inl hk
      · exact Or.inr ⟨h, hk⟩

theorem keyUnion_nodup {ks ls : List ℤ} (h1 : ks.Nodup) (h2 : ls.Nodup) :
    (keyUnion ks ls).Nodup := by
  rw [keyUnion, List.nodup_append]
  refine ⟨h1, h2.filter _, ?_⟩
  intro t ht hmem
  rcases List.mem_filter.1 hmem with ⟨_, hdec⟩
  rw [decide_eq_true_eq] at hdec
  exact hdec ht

theorem mergeStep_keys (m : MTable) (w : ℕ) (d : ATable) :
    (mergeStep m w d).map Prod.fst
      = keyUnion (m.map Prod.fst) (d.map Prod.fst) := by
  unfold mergeStep
  rw [List.map_map]
  simp [Function.comp_def]

/-! ## The merge-loop invariant -/

theorem goodTable_init (d : ATable) (hd : (d.map Prod.fst).Nodup) :
    goodTable [d] (initTable d) := by
  have hkeys : (initTable d).map Prod.fst = d.map Prod.fst := by
    unfold initTable
    rw [List.map_map]
    rfl
  refine ⟨by rw [hkeys]; exact hd, ?_, ?_⟩
  · intro t
    rw [hkeys]
    simp
  · intro p hp
    unfold initTable at hp
    obtain ⟨q, hq, rfl⟩ := List.mem_map.1 hp
    obtain ⟨t, v⟩ := q
    have hl : List.lookup t d = some v := lookup_of_mem_nodup hq hd
    simp [hl]

theorem goodTable_step (ps : List ATable) (d : ATable) (m : MTable)
    (hm : goodTable ps m) (hd : (d.map Prod.fst).Nodup) :
    goodTable (ps ++ [d]) (mergeStep m ps.length d) := by
  obtain ⟨hnd, hmem, hcells⟩ := hm
  have hkeys := mergeStep_keys m ps.length d
  refine ⟨?_, ?_, ?_⟩
  · rw [hkeys]
    exact keyUnion_nodup hnd hd
  · intro t
    rw [hkeys, keyUnion_mem, hmem t]
    constructor
    · rintro (⟨d1, hd1, ht⟩ | ht)
      · exact ⟨d1, List.mem_append_left _ hd1, ht⟩
      · exact ⟨d, List.mem_append_right _ (List.mem_singleton.2 rfl), ht⟩
    · rintro ⟨d1, hd1, ht⟩
      rcases List.mem_append.1 hd1 with h | h
      · exact Or.inl ⟨d1, h, ht⟩
      · rw [List.mem_singleton.1 h] at ht
        exact Or.inr ht
  · intro p hp
    unfold mergeStep at hp
    obtain ⟨t, ht, rfl⟩ := List.mem_map.1 hp
    rw [List.map_append]
    simp only [List.map_cons, List.map_nil]
    congr 1
    cases hl : List.lookup t m with
    | some cells =>
      have hc := hcells (t, cells) (lookup_mem hl)
      simpa using hc
    | none =>
      have hnot : t ∉ m.map Prod.fst := (lookupNoneKeys t m).1 hl
      have hall : ∀ d1 ∈ ps, List.lookup t d1 = none := by
        intro d1 hd1
        rcases hn : List.lookup t d1 with _ | v
        · rfl
        · exfalso
          apply hnot
          rw [hmem t]
          exact ⟨d1, hd1, List.mem_map.2 ⟨(t, v), lookup_mem hn, rfl⟩⟩
      rw [Option.getD_none]
      symm
      rw [show ps.length = (ps.map (fun d1 => List.lookup t d1)).length from
        (List.length_map _ _).symm]
      apply List.eq_replicate_length.2
      intro b hb
      obtain ⟨d1, hd1, rfl⟩ := List.mem_map.1 hb
      exact hall d1 hd1

theorem goodTable_mergeFold (rest : List ATable) :
    ∀ (ps : List ATable) (m : MTable), goodTable ps m →
      (∀ d ∈ rest, (d.map Prod.fst).Nodup) →
      goodTable (ps ++ rest) (mergeFold rest m ps.length) := by
  induction rest with
  | nil =>
    intro ps m hm _
    simpa using hm
  | cons d rest ih =>
    intro ps m hm hrest
    have h1 : goodTable (ps ++ [d]) (mergeStep m ps.length d) :=
      goodTable_step ps d m hm (hrest d (List.mem_cons_self _ _))
    have h2 := ih (ps ++ [d]) (mergeStep m ps.length d) h1
      (fun d1 hd1 => hrest d1 (List.mem_cons_of_mem _ hd1))
    rw [List.length_append] at h2
    simpa [List.append_assoc] using h2

theorem goodTable_outerMergeAll (ds : List ATable) (hne : ds ≠ [])
    (hds : ∀ d ∈ ds, (d.map Prod.fst).Nodup) :
    goodTable ds (outerMergeAll ds) := by
  cases ds with
  | nil => exact absurd rfl hne
  | cons d rest =>
    have h0 : goodTable [d] (initTable d) :=
      goodTable_init d (hds d (List.mem_cons_self _ _))
    have h1 := goodTable_mergeFold rest [d] (initTable d) h0
      (fun d1 hd1 => hds d1 (List.mem_cons_of_mem _ hd1))
    simpa [outerMergeAll] using h1

end Photometry

namespace Photometry

/-! ## Helper lemmas: `drop_duplicates` and `sort_values` -/

theorem dedupAux_eq_self : ∀ (l : MTable) (seen : List ℤ),
    (l.map Prod.fst).Nodup → (∀ p ∈ l, p.1 ∉ seen) → dedupAux seen l = l := by
  intro l
  induction l with
  | nil => intro seen _ _; rfl
  | cons p rest ih =>
    intro seen hnd hseen
    simp only [List.map_cons, List.nodup_cons] at hnd
    unfold dedupAux
    rw [if_neg (hseen p (List.mem_cons_self _ _))]
    congr 1
    apply ih
    · exact hnd.2
    · intro q hq hmem
      rcases List.mem_cons.1 hmem with heq | hs
      · exact hnd.1 (heq ▸ List.mem_map.2 ⟨q, hq, rfl⟩)
      · exact hseen q (List.mem_cons_of_mem _ hq) hs

theorem insertRow_perm (p : ℤ × List (Option ℚ)) :
    ∀ l : MTable, (insertRow p l).Perm (p :: l) := by
  intro l
  induction l with
  | nil => exact List.Perm.refl _
  | cons q rest ih =>
    unfold insertRow
    by_cases h : p.1 ≤ q.1
    · rw [if_pos h]
    · rw [if_neg h]
      exact (ih.cons q).trans (List.Perm.swap p q rest)

theorem sortByKey_perm : ∀ l : MTable, (sortByKey l).Perm l := by
  intro l
  induction l with
  | nil => exact List.Perm.refl _
  | cons p rest ih =>
    unfold sortByKey
    exact (insertRow_perm p (sortByKey rest)).trans (ih.cons p)

theorem insertRow_sorted (p : ℤ × List (Option ℚ)) :
    ∀ l : MTable,
      List.Pairwise (fun a b : ℤ × List (Option ℚ) => a.1 ≤ b.1) l →
      List.Pairwise (fun a b : ℤ × List (Option ℚ) => a.1 ≤ b.1)
        (insertRow p l) := by
  intro l
  induction l with
  | nil => intro _; exact List.pairwise_singleton _ _
  | cons q rest ih =>
    intro hs
    rw [List.pairwise_cons] at hs
    obtain ⟨hq, hrest⟩ := hs
    unfold insertRow
    by_cases h : p.1 ≤ q.1
    · rw [if_pos h, List.pairwise_cons]
      constructor
      · intro b hb
        rcases List.mem_cons.1 hb with heq | hbr
        · rw [heq]
          exact h
        · exact le_trans h (hq b hbr)
      · rw [List.pairwise_cons]
        exact ⟨hq, hrest⟩
    · rw [if_neg h, List.pairwise_cons]
      constructor
      · intro b hb
        rcases List.mem_cons.1 ((insertRow_perm p rest).mem_iff.1 hb) with heq | hbr
        · rw [heq]
          exact le_of_not_le h
        · exact hq b hbr
      · exact ih hrest

theorem sortByKey_sorted : ∀ l : MTable,
    List.Pairwise (fun a b : ℤ × List (Option ℚ) => a.1 ≤ b.1) (sortByKey l) := by
  intro l
  induction l with
  | nil => exact List.Pairwise.nil
  | cons p rest ih =>
    unfold sortByKey
    exact insertRow_sorted p (sortByKey rest) ih

theorem pairwise_lt_of_le_nodup : ∀ (l : List ℤ),
    List.Pairwise (· ≤ ·) l → l.Nodup → List.Pairwise (· < ·) l := by
  intro l
  induction l with
  | nil => intro _ _; exact List.Pairwise.nil
  | cons a t ih =>
    intro hle hnd
    rw [List.pairwise_cons] at hle ⊢
    rw [List.nodup_cons] at hnd
    refine ⟨?_, ih hle.2 hnd.2⟩
    intro b hb
    exact lt_of_le_of_ne (hle.1 b hb) (fun h => hnd.1 (h ▸ hb))

/-! ## Claim C9 (outer-join merge of the group tables) -/

/-- Claim C9: for per-animal tables with duplicate-free (binned) time keys,
the iterated outer merge followed by `drop_duplicates` and `sort_values`
produces a table whose time column is the union of all contributing
animals' timestamps, deduplicated and sorted strictly ascending, and whose
row cells are exactly each animal's looked-up value at the row's time —
`none` (null) wherever that animal has no sample at that time. -/
theorem merge_outer_join (ds : List ATable) (hne : ds ≠ [])
    (hds : ∀ d ∈ ds, (d.map Prod.fst).Nodup) :
    List.Pairwise (· < ·) ((load_group_merge ds).map Prod.fst) ∧
    (∀ t : ℤ, t ∈ (load_group_merge ds).map Prod.fst
      ↔ ∃ d ∈ ds, t ∈ d.map Prod.fst) ∧
    (∀ p ∈ load_group_merge ds,
      p.2 = ds.map (fun d => List.lookup p.1 d)) := by
  obtain ⟨hnd, hmem, hcells⟩ := goodTable_outerMergeAll ds hne hds
  have hded : dedupByKey (outerMergeAll ds) = outerMergeAll ds :=
    dedupAux_eq_self _ [] hnd (fun p _ => List.not_mem_nil _)
  have hperm : (load_group_merge ds).Perm (outerMergeAll ds) := by
    unfold load_group_merge
    rw [hded]
    exact sortByKey_perm _
  have hkeysperm : ((load_group_merge ds).map Prod.fst).Perm
      ((outerMergeAll ds).map Prod.fst) := hperm.map _
  refine ⟨?_, ?_, ?_⟩
  · apply pairwise_lt_of_le_nodup
    · have hs : List.Pairwise (fun a b : ℤ × List (Option ℚ) => a.1 ≤ b.1)
          (load_group_merge ds) := by
        unfold load_group_merge
        exact sortByKey_sorted _
      rw [List.pairwise_map]
      exact hs
    · exact hkeysperm.nodup_iff.2 hnd
  · intro t
    rw [hkeysperm.mem_iff]
    exact hmem t
  · intro p hp
    exact hcells p (hperm.mem_iff.1 hp)

/-- Witness for `merge_outer_join`: two single-row animals with disjoint
time stamps 0 and 5. -/
theorem merge_outer_join_witness :
    List.Pairwise (· < ·)
      ((load_group_merge [[((0:ℤ), (1:ℚ))], [(5, 2)]]).map Prod.fst) ∧
    (∀ t : ℤ, t ∈ (load_group_merge [[((0:ℤ), (1:ℚ))], [(5, 2)]]).map Prod.fst
      ↔ ∃ d ∈ [[((0:ℤ), (1:ℚ))], [(5, 2)]], t ∈ d.map Prod.fst) ∧
    (∀ p ∈ load_group_merge [[((0:ℤ), (1:ℚ))], [(5, 2)]],
      p.2 = [[((0:ℤ), (1:ℚ))], [(5, 2)]].map (fun d => List.lookup p.1 d)) :=
  merge_outer_join _ (by simp) (by decide)

end Photometry
